import Mathlib

/-!
# Verification of the tensorbuilder core (`src/tensorbuilder.py`)

The development below gives a shallow embedding of the tensorbuilder
library.  Two models are used:

* a **value-level model**: a `Builder` is the pair of its tensor and its
  accumulated `variables` dictionary; every operation is a pure function on
  these values, threading the collaborator's fresh-name counter explicitly
  and reporting failures through `Except`;
* a **heap model** (further below): Python objects live in an explicit
  store, so that statements about mutation, object identity and the shared
  mutable default argument of `Builder.__init__` become expressible.

Tensors are symbolic: the numeric framework (tensorflow) is an external
collaborator, so the embedding only records which collaborator primitive
was applied to which arguments, together with static shapes.
-/

namespace TensorBuilder

/-- Error taxonomy.  `shapeError` is the spec's name (§7) for the failure
the collaborator raises when an operation requiring a 2-D value receives a
value of another rank.  `attributeError` models Python's `AttributeError`
raised when a method such as `get_shape` is called on `None`.
`collaboratorError` models a collaborator function applied to the absent
(`None`) value.  `emptyTreeError` is listed by the spec's taxonomy only;
the source never raises it. -/
inductive Err where
  | shapeError
  | attributeError
  | collaboratorError
  | emptyTreeError
deriving DecidableEq, Repr

/-- Symbolic computation-graph values.  `input` is an externally supplied
tensor, `var` is a trainable parameter handle created by the collaborator
(`vid` is the creation counter, making handles distinguishable), `matmul`,
`add` and `app` record the collaborator primitives `tf.matmul`, `tf.add`
and an opaque caller-supplied function (identified by `fid`) applied with
an optional `name` tag. -/
inductive Tensor where
  | input (id : Nat) (shape : List Nat)
  | var (vid : Nat) (shape : List Nat)
  | matmul (a b : Tensor) (name : Option String)
  | add (a b : Tensor) (name : Option String)
  | app (fid : Nat) (t : Tensor) (name : Option String)
deriving DecidableEq, Repr

/-- Static shape reported by the collaborator's shape introspection.
Modelled from the spec (§6): `matmul` of `[m, n]` and `[n, p]` reports
`[m, p]`; `add` reports its first argument's shape (the bias broadcast
keeps it); an opaque applied function is only used in tail position by the
claims, its reported shape is its argument's. -/
def Tensor.shape : Tensor → List Nat
  | .input _ s => s
  | .var _ s => s
  | .matmul a b _ => [a.shape.headD 0, b.shape.getD 1 0]
  | .add a _ _ => a.shape
  | .app _ t _ => t.shape

/-- `tf.matmul`.  Modelled from the spec (§6): the collaborator accepts
exactly two 2-D operands with matching inner extents and fails with the
spec's `ShapeError` otherwise. -/
def tfMatmul (a b : Tensor) (name : Option String) : Except Err Tensor :=
  match a.shape, b.shape with
  | [_, n], [n2, _] =>
    if n = n2 then .ok (Tensor.matmul a b name) else .error .shapeError
  | _, _ => .error .shapeError

/-- `tf.add`.  Modelled from the spec (§6): elementwise add of two values
of equal shape, or the bias broadcast `[m, n] + [n]`; any other
combination fails with the spec's `ShapeError`. -/
def tfAdd (a b : Tensor) (name : Option String) : Except Err Tensor :=
  if a.shape = b.shape then .ok (Tensor.add a b name)
  else
    match a.shape, b.shape with
    | [_, n], [n2] =>
      if n = n2 then .ok (Tensor.add a b name) else .error .shapeError
    | _, _ => .error .shapeError

/-- The name the collaborator generates for the `c`-th created variable
when the caller supplies none (`w.name` in the source). -/
def genName (c : Nat) : String := "Variable_" ++ toString c

/-- The accumulated `variables` dictionary of a builder: an
insertion-ordered association list, the value-level image of a Python
`dict`. -/
abbrev Dict := List (String × Tensor)

/-- Whether `d` holds key `k`. -/
def hasKey (d : Dict) (k : String) : Bool := d.any (fun p => p.1 == k)

/-- First value stored under `k`, if any. -/
def dictFind (d : Dict) (k : String) : Option Tensor :=
  (d.find? (fun p => p.1 == k)).map (fun p => p.2)

/-- Python `d[k] = v`: overwrite in place when the key is present (the
entry keeps its position), append otherwise. -/
def dictUpdate (d : Dict) (k : String) (v : Tensor) : Dict :=
  if hasKey d k then d.map (fun p => if p.1 == k then (k, v) else p)
  else d ++ [(k, v)]

/-- Python `d.update(other)`: assign every entry of `other`, in order. -/
def dictMerge (d other : Dict) : Dict :=
  other.foldl (fun acc p => dictUpdate acc p.1 p.2) d

/-- Value-level `Builder` (`src/tensorbuilder.py:101`): one tensor (the
absent value `None` is `none`, producible by `_add_builders` on an empty
list) together with the accumulated `variables` dictionary. -/
structure Builder where
  tensor : Option Tensor
  vars : Dict
deriving DecidableEq, Repr

/-- `Builder.copy` (`src/tensorbuilder.py:125`): a fresh builder holding
the same tensor and a copy of the dictionary.  At the value level a copy
is equal to the original; object freshness is captured by the heap model
below. -/
def Builder.copy (b : Builder) : Builder :=
  { tensor := b.tensor, vars := b.vars }

/-- `builder.tensor` dereferenced by a method call: `None` raises
`AttributeError`. -/
def getTensor (t : Option Tensor) : Except Err Tensor :=
  match t with
  | some x => .ok x
  | none => .error .attributeError

/-- `int(x.get_shape()[1])`: the second static extent.  Modelled from the
spec (§6): shape introspection must report a 2-D extent, so a value of
rank below 2 fails with the spec's `ShapeError`. -/
def getDim1 (x : Tensor) : Except Err Nat :=
  match x.shape with
  | _ :: n :: _ => .ok n
  | _ => .error .shapeError

/-- `Builder.connect_weights` (`src/tensorbuilder.py:129`).  The
`@_immutable` decorator passes a copy of the receiver; `c` is the
collaborator's fresh-name counter, returned incremented.  Mirrors the
source body statement by statement. -/
def connect_weights (self : Builder) (size : Nat)
    (name weights_name : Option String) (c : Nat) :
    Except Err (Builder × Nat) :=
  let builder := self.copy
  match getTensor builder.tensor with
  | .error e => .error e
  | .ok x =>
    match getDim1 x with
    | .error e => .error e
    | .ok m =>
      let n := size
      let w := Tensor.var c [m, n]
      let var_name := match weights_name with
        | some s => s
        | none => genName c
      let vs := dictUpdate builder.vars var_name w
      match tfMatmul x w name with
      | .error e => .error e
      | .ok t => .ok ({ tensor := some t, vars := vs }, c + 1)

/-- `Builder.connect_bias` (`src/tensorbuilder.py:171`). -/
def connect_bias (self : Builder) (name bias_name : Option String)
    (c : Nat) : Except Err (Builder × Nat) :=
  let builder := self.copy
  match getTensor builder.tensor with
  | .error e => .error e
  | .ok x =>
    match getDim1 x with
    | .error e => .error e
    | .ok m =>
      let b := Tensor.var c [m]
      let var_name := match bias_name with
        | some s => s
        | none => genName c
      let vs := dictUpdate builder.vars var_name b
      match tfAdd x b name with
      | .error e => .error e
      | .ok t => .ok ({ tensor := some t, vars := vs }, c + 1)

/-- `fn(tensor, name=name)` for a caller-supplied activation `fn`
(symbolic id).  Modelled from the spec (§6): a collaborator function
requires a value, so applying it to the absent value fails. -/
def applyFn (f : Nat) (t : Option Tensor) (name : Option String) :
    Except Err (Option Tensor) :=
  match t with
  | some x => .ok (some (Tensor.app f x name))
  | none => .error .collaboratorError

/-- `Builder.connect_layer` (`src/tensorbuilder.py:222`): weights, then
optionally bias, then optionally the activation tagged with `name`. -/
def connect_layer (self : Builder) (size : Nat) (fn : Option Nat)
    (name weights_name : Option String) (bias : Bool)
    (bias_name : Option String) (c : Nat) : Except Err (Builder × Nat) :=
  let builder := self.copy
  match connect_weights builder size none weights_name c with
  | .error e => .error e
  | .ok (b1, c1) =>
    match (if bias then connect_bias b1 none bias_name c1
      else .ok (b1, c1)) with
    | .error e => .error e
    | .ok (b2, c2) =>
      match fn with
      | some f =>
        match applyFn f b2.tensor name with
        | .error e => .error e
        | .ok t => .ok ({ b2 with tensor := t }, c2)
      | none => .ok (b2, c2)

/-- `Builder._leafs` (`src/tensorbuilder.py:472`): a generator yielding
one element.  `@_immutable` makes it yield the copy of the receiver. -/
def Builder.leafs (b : Builder) : List Builder := [b.copy]

/-- An element of `BuilderTree.branches`: either a `Builder` or a nested
`BuilderTree` (represented by its own branches list). -/
inductive BT where
  | bldr (b : Builder) : BT
  | tree (branches : List BT) : BT
deriving Repr

/-- `BuilderTree._leafs` (`src/tensorbuilder.py:618`) flattened over a
branches list: the nested generators (`Builder._leafs` yields the copy of
the builder, `BuilderTree._leafs` recurses into each branch in order)
written as one list recursion. -/
def treeLeafs : List BT → List Builder
  | [] => []
  | .bldr b :: ts => Builder.copy b :: treeLeafs ts
  | .tree bs :: ts => treeLeafs bs ++ treeLeafs ts
termination_by l => sizeOf l

/-- `BuilderTree` (`src/tensorbuilder.py:478`): a list of branches, each a
`Builder` or a nested tree. -/
structure BuilderTree where
  branches : List BT

/-- `BuilderTree.copy` (`src/tensorbuilder.py:489`): a fresh tree over a
shallow copy of the branches list. -/
def BuilderTree.copy (t : BuilderTree) : BuilderTree :=
  { branches := t.branches }

/-- `BuilderTree.builders` (`src/tensorbuilder.py:493`): the flattened
list of the builders contained by the tree, in generator order. -/
def BuilderTree.builders (t : BuilderTree) : List Builder :=
  treeLeafs t.copy.branches

/-- `_add_builders`' loop (`src/tensorbuilder.py:680`), with the running
`tensor` (initially `None`) and `variables` (initially `{}`): the first
tensor seeds the sum, later ones are added with `+=` (collaborator add,
no name); each builder's dictionary is merged with `update`. -/
def addBuildersGo (tensor : Option Tensor) (vs : Dict) :
    List Builder → Except Err Builder
  | [] => .ok { tensor := tensor, vars := vs }
  | b :: bs =>
      match tensor, b.tensor with
      | none, bt => addBuildersGo bt (dictMerge vs b.vars) bs
      | some t, some bt =>
        match tfAdd t bt none with
        | .error e => .error e
        | .ok t2 => addBuildersGo (some t2) (dictMerge vs b.vars) bs
      | some _, none => .error .collaboratorError

/-- `_add_builders` (`src/tensorbuilder.py:680`). -/
def add_builders (builders : List Builder) : Except Err Builder :=
  addBuildersGo none [] builders

/-- The list comprehension
`[builder.connect_weights(size) for builder in tree._leafs()]` of
`BuilderTree.connect_layer`: evaluated left to right, threading the
collaborator counter, the first failure propagating. -/
def connectWeightsAll (size : Nat) : List Builder → Nat →
    Except Err (List Builder × Nat)
  | [], c => .ok ([], c)
  | b :: bs, c =>
      match connect_weights b size none none c with
      | .error e => .error e
      | .ok (b1, c1) =>
        match connectWeightsAll size bs c1 with
        | .error e => .error e
        | .ok (rest, c2) => .ok (b1 :: rest, c2)

/-- `BuilderTree.connect_layer` (`src/tensorbuilder.py:556`): a
no-bias weight connection per leaf, `_add_builders`, then optionally the
shared bias, then optionally the activation tagged with `name`. -/
def BuilderTree.connect_layer (self : BuilderTree) (size : Nat)
    (fn : Option Nat) (name : Option String) (bias : Bool)
    (bias_name : Option String) (c : Nat) : Except Err (Builder × Nat) :=
  let tree := self.copy
  match connectWeightsAll size (treeLeafs tree.branches) c with
  | .error e => .error e
  | .ok (builders, c1) =>
    match add_builders builders with
    | .error e => .error e
    | .ok builder =>
      match (if bias then connect_bias builder none bias_name c1
        else .ok (builder, c1)) with
      | .error e => .error e
      | .ok (b2, c2) =>
        match fn with
        | some f =>
          match applyFn f b2.tensor name with
          | .error e => .error e
          | .ok t => .ok ({ b2 with tensor := t }, c2)
        | none => .ok (b2, c2)

/-- Following the spec's words (§4.2 `leaves()`): the Nodes reachable by
depth-first, left-to-right traversal of `branches`, recursing into nested
Trees and yielding Nodes directly.  Written independently of the source
embedding `treeLeafs`, for the refinement claim about leaf enumeration. -/
def specDFSLeaves : List BT → List Builder
  | [] => []
  | .bldr b :: ts => b :: specDFSLeaves ts
  | .tree bs :: ts => specDFSLeaves bs ++ specDFSLeaves ts
termination_by l => sizeOf l

/-- Following the spec's words (§4.2 fan-in, per-leaf step): an
independent weight connection for one leaf — a fresh parameter of shape
`[leaf width, size]` under the collaborator-generated name, recorded in
that leaf's mapping, the leaf's value multiplied by it. -/
def specLeafConnect (size c : Nat) (b : Builder) : Tensor × Dict :=
  let x := b.tensor.getD (Tensor.input 0 [])
  let w := Tensor.var c [x.shape.getD 1 0, size]
  (Tensor.matmul x w none, dictUpdate b.vars (genName c) w)

/-- One reduction step of the spec's fan-in (§4.2): weight-connect the
next leaf with the running counter, add its value to the running sum, and
merge its mapping into the running mapping (last-write-wins). -/
def specFanInStep (size : Nat) (a : Tensor × Dict × Nat) (l : Builder) :
    Tensor × Dict × Nat :=
  let si := specLeafConnect size a.2.2 l
  (Tensor.add a.1 si.1 none, dictMerge a.2.1 si.2, a.2.2 + 1)

/-- Following the spec's words (§4.2 `connect_layer` on a Tree): every
leaf gets its own independent no-bias weight connection; the per-leaf
values are reduced by elementwise sum in leaf order; the first leaf's
mapping seeds the merge and each later mapping is merged in
(last-write-wins); then a single shared bias of length `size` when
`use_bias`, then the activation with `name`; the empty tree is rejected. -/
def specFanIn (leaves : List Builder) (size : Nat) (fn : Option Nat)
    (name : Option String) (bias : Bool) (bias_name : Option String)
    (c : Nat) : Option (Builder × Nat) :=
  match leaves with
  | [] => none
  | l0 :: rest =>
    let s0 := specLeafConnect size c l0
    let acc := rest.foldl (specFanInStep size) (s0.1, s0.2, c + 1)
    let withBias :=
      if bias then
        let bv := Tensor.var acc.2.2 [size]
        let bn := match bias_name with
          | some s => s
          | none => genName acc.2.2
        (Tensor.add acc.1 bv none, dictUpdate acc.2.1 bn bv, acc.2.2 + 1)
      else acc
    let t2 := match fn with
      | some f => Tensor.app f withBias.1 name
      | none => withBias.1
    some ({ tensor := some t2, vars := withBias.2.1 }, withBias.2.2)

/-! ## Dictionary lemmas -/

theorem copy_eq (b : Builder) : b.copy = b := rfl

theorem dictUpdate_of_not_hasKey (d : Dict) (k : String) (v : Tensor)
    (h : hasKey d k = false) : dictUpdate d k v = d ++ [(k, v)] := by
  simp [dictUpdate, h]

theorem hasKey_append (d e : Dict) (k : String) :
    hasKey (d ++ e) k = (hasKey d k || hasKey e k) := by
  simp [hasKey, List.any_append]

theorem keys_of_overwrite (d : Dict) (k : String) (v : Tensor) :
    (d.map fun p => if p.1 == k then (k, v) else p).map Prod.fst
      = d.map Prod.fst := by
  induction d with
  | nil => simp
  | cons p t ih =>
    simp only [List.map_cons, ih, List.cons.injEq, and_true]
    by_cases hp : p.1 = k <;> simp [hp]

theorem dictUpdate_keys_nodup (d : Dict) (k : String) (v : Tensor)
    (h : (d.map Prod.fst).Nodup) : ((dictUpdate d k v).map Prod.fst).Nodup := by
  unfold dictUpdate
  by_cases hk : hasKey d k
  · rw [if_pos hk, keys_of_overwrite]
    exact h
  · rw [if_neg hk]
    simp only [hasKey, List.any_eq_true, beq_iff_eq, not_exists, not_and] at hk
    simp only [List.map_append, List.map_cons, List.map_nil,
      List.nodup_append, h, true_and]
    refine ⟨List.nodup_singleton k, ?_⟩
    intro a ha hb
    simp only [List.mem_singleton] at hb
    subst hb
    simp only [List.mem_map] at ha
    obtain ⟨p, hp, hpk⟩ := ha
    exact hk p hp hpk

theorem dictMerge_append (acc d : Dict)
    (h : ((acc ++ d).map Prod.fst).Nodup) : dictMerge acc d = acc ++ d := by
  induction d generalizing acc with
  | nil => simp [dictMerge]
  | cons p rest ih =>
    obtain ⟨k, v⟩ := p
    have hk : hasKey acc k = false := by
      simp only [List.map_append, List.map_cons, List.nodup_append] at h
      obtain ⟨_, _, hdis⟩ := h
      simp only [hasKey, List.any_eq_false, beq_iff_eq]
      intro q hq hqk
      have hmem : k ∈ acc.map Prod.fst :=
        List.mem_map.mpr ⟨q, hq, hqk⟩
      have := hdis hmem
      simp at this
    show dictMerge (dictUpdate acc k v) rest = acc ++ (k, v) :: rest
    rw [dictUpdate_of_not_hasKey acc k v hk]
    have h2 : (((acc ++ [(k, v)]) ++ rest).map Prod.fst).Nodup := by
      simpa using h
    rw [ih (acc ++ [(k, v)]) h2]
    simp

theorem dictMerge_nil (d : Dict) (h : (d.map Prod.fst).Nodup) :
    dictMerge [] d = d := by
  simpa using dictMerge_append [] d (by simpa using h)

/-! ## Helper lemmas about the single-chain operations -/

theorem connect_weights_eq (b : Builder) (x : Tensor) (m n size : Nat)
    (name wn : Option String) (c : Nat)
    (ht : b.tensor = some x) (hs : x.shape = [m, n]) :
    connect_weights b size name wn c =
      .ok ({ tensor := some (Tensor.matmul x (Tensor.var c [n, size]) name),
             vars := dictUpdate b.vars (wn.getD (genName c))
               (Tensor.var c [n, size]) }, c + 1) := by
  cases wn <;>
    simp [connect_weights, Builder.copy, getTensor, getDim1, tfMatmul, ht, hs,
      Tensor.shape]

theorem connect_bias_eq (b : Builder) (x : Tensor) (m n : Nat)
    (name bn : Option String) (c : Nat)
    (ht : b.tensor = some x) (hs : x.shape = [m, n]) :
    connect_bias b name bn c =
      .ok ({ tensor := some (Tensor.add x (Tensor.var c [n]) name),
             vars := dictUpdate b.vars (bn.getD (genName c))
               (Tensor.var c [n]) }, c + 1) := by
  have hne : x.shape ≠ (Tensor.var c [n]).shape := by
    simp [hs, Tensor.shape]
  cases bn <;>
    simp [connect_bias, Builder.copy, getTensor, getDim1, tfAdd, ht, hs,
      Tensor.shape, hne]

/-! ## Claim theorems: single-chain operations and errors -/

/-- Claim C9: for every Node, `leaves()` produces a finite sequence
containing exactly one element, and that element equals the receiver (the
generator yields a fresh copy of the receiver; the copy is equal to it). -/
theorem claim9_builder_leaves (b : Builder) : Builder.leafs b = [b] := rfl

/-- Claim C2 (counterexample): `group([]).connect_layer(size)` with
`use_bias=false` and no activation does not raise `EmptyTreeError`; it
returns a defaulted Node whose value is the none placeholder and whose
parameter mapping is empty, refuting the claim that the fan-in raises
`EmptyTreeError` on an empty tree regardless of the options. -/
theorem claim2_counterexample :
    BuilderTree.connect_layer ⟨[]⟩ 3 none none false none 0
        = .ok ({ tensor := none, vars := [] }, 0) ∧
      BuilderTree.connect_layer ⟨[]⟩ 3 none none false none 0
        ≠ .error .emptyTreeError := by
  have h1 : BuilderTree.connect_layer ⟨[]⟩ 3 none none false none 0
      = .ok ({ tensor := none, vars := [] }, 0) := by
    simp [BuilderTree.connect_layer, BuilderTree.copy, treeLeafs,
      connectWeightsAll, add_builders, addBuildersGo]
  exact ⟨h1, by rw [h1]; simp⟩

/-- Claim C2 (amended): the fan-in `connect_layer` on an empty tree never
raises `EmptyTreeError` (the source defines no such rejection): for every
size, with `use_bias=false` and no activation it returns a defaulted Node
whose value is the none placeholder and whose parameters are empty, and
with `use_bias=true` it fails, but with the attribute error raised by
reading the shape of the absent combined value. -/
theorem claim2_empty_tree_behavior (size : Nat) (name bn : Option String)
    (c : Nat) :
    BuilderTree.connect_layer ⟨[]⟩ size none name false bn c
        = .ok ({ tensor := none, vars := [] }, c) ∧
      BuilderTree.connect_layer ⟨[]⟩ size none name true bn c
        = .error .attributeError := by
  constructor <;>
    simp [BuilderTree.connect_layer, BuilderTree.copy, treeLeafs,
      connectWeightsAll, add_builders, addBuildersGo, connect_bias,
      Builder.copy, getTensor]

/-- Claim C4: on a Node whose value has 2-D shape `[m, n]`,
`connect_weights(size)` creates one new trainable parameter of shape
`[n, size]`, records it in the result's mapping under the user-supplied
name when given and under the collaborator-generated name otherwise, and
sets the result's value to the matrix product of the receiver's value and
that parameter. -/
theorem claim4_connect_weights_correct (b : Builder) (x : Tensor)
    (m n size : Nat) (name wn : Option String) (c : Nat)
    (ht : b.tensor = some x) (hs : x.shape = [m, n]) :
    connect_weights b size name wn c =
      .ok ({ tensor := some (Tensor.matmul x (Tensor.var c [n, size]) name),
             vars := dictUpdate b.vars (wn.getD (genName c))
               (Tensor.var c [n, size]) }, c + 1) :=
  connect_weights_eq b x m n size name wn c ht hs

/-- Witness for C4 at the concrete input `[2, 3]`, size 4, user-supplied
parameter name. -/
theorem claim4_witness :
    (Builder.mk (some (.input 0 [2, 3])) []).tensor
        = some (.input 0 [2, 3]) ∧
      (Tensor.input 0 [2, 3]).shape = [2, 3] ∧
      connect_weights ⟨some (.input 0 [2, 3]), []⟩ 4 none (some "w") 0 =
        .ok ({ tensor := some (.matmul (.input 0 [2, 3]) (.var 0 [3, 4]) none),
               vars := [("w", .var 0 [3, 4])] }, 1) := by
  have h := claim4_connect_weights_correct ⟨some (.input 0 [2, 3]), []⟩
    (.input 0 [2, 3]) 2 3 4 none (some "w") 0 rfl rfl
  exact ⟨rfl, rfl, by rw [h]; rfl⟩

/-- Claim C1: on a Node whose value is not 2-D, both `connect_weights` and
`connect_bias` fail with `ShapeError`, synchronously at the call (the
`Except` result is the error itself, so it propagates directly with no
retry). -/
theorem claim1_non2d_raises_shape_error (b : Builder) (x : Tensor)
    (size : Nat) (name wn bn : Option String) (c : Nat)
    (ht : b.tensor = some x) (hs : x.shape.length ≠ 2) :
    connect_weights b size name wn c = .error .shapeError ∧
      connect_bias b name bn c = .error .shapeError := by
  cases hx : x.shape with
  | nil =>
    constructor <;>
      simp [connect_weights, connect_bias, Builder.copy, getTensor, getDim1,
        ht, hx]
  | cons a tl =>
    cases tl with
    | nil =>
      constructor <;>
        simp [connect_weights, connect_bias, Builder.copy, getTensor, getDim1,
          ht, hx]
    | cons d tl2 =>
      cases tl2 with
      | nil => exact absurd (by rw [hx]; rfl) hs
      | cons e t =>
        constructor <;>
          simp [connect_weights, connect_bias, Builder.copy, getTensor,
            getDim1, tfMatmul, tfAdd, ht, hx, Tensor.shape]

/-- Witness for C1 at the concrete 1-D input `[5]`. -/
theorem claim1_witness :
    (Builder.mk (some (.input 0 [5])) []).tensor = some (.input 0 [5]) ∧
      (Tensor.input 0 [5]).shape.length ≠ 2 ∧
      connect_weights ⟨some (.input 0 [5]), []⟩ 3 none none 0
        = .error .shapeError ∧
      connect_bias ⟨some (.input 0 [5]), []⟩ none none 0
        = .error .shapeError := by
  have h := claim1_non2d_raises_shape_error ⟨some (.input 0 [5]), []⟩
    (.input 0 [5]) 3 none none none 0 rfl (by decide)
  exact ⟨rfl, by decide, h.1, h.2⟩

/-- Claim C5: `connect_layer(size, fn, ...)` equals the composition of the
separate calls: `connect_weights(size, weights_name)`, then
`connect_bias(bias_name)` exactly when `use_bias`, then — when an
activation is supplied — the activation applied to the value with the
`name` argument. -/
theorem claim5_connect_layer_composition (b : Builder) (size : Nat)
    (f : Option Nat) (name wn : Option String) (bias : Bool)
    (bn : Option String) (c : Nat) :
    connect_layer b size f name wn bias bn c =
      (match connect_weights b size none wn c with
       | .error e => .error e
       | .ok (b1, c1) =>
         match (if bias then connect_bias b1 none bn c1
           else .ok (b1, c1)) with
         | .error e => .error e
         | .ok (b2, c2) =>
           match f with
           | some g =>
             match applyFn g b2.tensor name with
             | .error e => .error e
             | .ok t => .ok ({ b2 with tensor := t }, c2)
           | none => .ok (b2, c2)) := rfl

/-- Claim C6: on a Node with a 2-D value, `connect_layer(k)` accumulates
parameters: the result's mapping is the receiver's mapping extended with
exactly two new entries (the weight, then the bias) when `use_bias` is
true and exactly one new entry when false, provided the chosen parameter
names collide neither with existing entries nor with each other. -/
theorem claim6_parameter_accumulation (b : Builder) (x : Tensor)
    (m n k : Nat) (f : Option Nat) (name wn : Option String) (bias : Bool)
    (bn : Option String) (c : Nat)
    (ht : b.tensor = some x) (hs : x.shape = [m, n])
    (hw : hasKey b.vars (wn.getD (genName c)) = false)
    (hb : hasKey b.vars (bn.getD (genName (c + 1))) = false)
    (hwb : wn.getD (genName c) ≠ bn.getD (genName (c + 1))) :
    ∃ B c2, connect_layer b k f name wn bias bn c = .ok (B, c2) ∧
      B.vars = b.vars ++
        (if bias then
          [(wn.getD (genName c), Tensor.var c [n, k]),
           (bn.getD (genName (c + 1)), Tensor.var (c + 1) [k])]
         else [(wn.getD (genName c), Tensor.var c [n, k])]) := by
  have h1 := connect_weights_eq b x m n k none wn c ht hs
  have hshape : (Tensor.matmul x (Tensor.var c [n, k]) none).shape = [m, k] := by
    simp [Tensor.shape, hs]
  have hd1 : dictUpdate b.vars (wn.getD (genName c)) (Tensor.var c [n, k])
      = b.vars ++ [(wn.getD (genName c), Tensor.var c [n, k])] :=
    dictUpdate_of_not_hasKey _ _ _ hw
  cases bias with
  | false =>
    cases f with
    | none =>
      refine ⟨{ tensor := some (Tensor.matmul x (Tensor.var c [n, k]) none),
                vars := dictUpdate b.vars (wn.getD (genName c))
                  (Tensor.var c [n, k]) }, c + 1, ?_, ?_⟩
      · simp only [connect_layer, copy_eq, h1]
        rfl
      · simpa using hd1
    | some g =>
      refine ⟨{ tensor := some (Tensor.app g
                  (Tensor.matmul x (Tensor.var c [n, k]) none) name),
                vars := dictUpdate b.vars (wn.getD (genName c))
                  (Tensor.var c [n, k]) }, c + 1, ?_, ?_⟩
      · simp only [connect_layer, copy_eq, h1]
        rfl
      · simpa using hd1
  | true =>
    have h2 := connect_bias_eq
      { tensor := some (Tensor.matmul x (Tensor.var c [n, k]) none),
        vars := dictUpdate b.vars (wn.getD (genName c)) (Tensor.var c [n, k]) }
      (Tensor.matmul x (Tensor.var c [n, k]) none) m k none bn (c + 1)
      rfl hshape
    have hb2 : (List.any b.vars fun p => p.1 == bn.getD (genName (c + 1)))
        = false := hb
    have hs2 : hasKey [(wn.getD (genName c), Tensor.var c [n, k])]
        (bn.getD (genName (c + 1))) = false := by
      simp only [hasKey, List.any_cons, List.any_nil, Bool.or_false]
      rw [beq_eq_false_iff_ne]
      exact hwb
    have hk2 : hasKey (b.vars ++ [(wn.getD (genName c), Tensor.var c [n, k])])
        (bn.getD (genName (c + 1))) = false := by
      rw [hasKey_append, hs2]
      simp only [hasKey, hb2, Bool.or_false]
    have hd2 : dictUpdate
        (b.vars ++ [(wn.getD (genName c), Tensor.var c [n, k])])
        (bn.getD (genName (c + 1))) (Tensor.var (c + 1) [k])
        = b.vars ++ [(wn.getD (genName c), Tensor.var c [n, k]),
            (bn.getD (genName (c + 1)), Tensor.var (c + 1) [k])] := by
      rw [dictUpdate_of_not_hasKey _ _ _ hk2, List.append_assoc]
      rfl
    cases f with
    | none =>
      refine ⟨{ tensor := some (Tensor.add
                  (Tensor.matmul x (Tensor.var c [n, k]) none)
                  (Tensor.var (c + 1) [k]) none),
                vars := dictUpdate
                  (dictUpdate b.vars (wn.getD (genName c)) (Tensor.var c [n, k]))
                  (bn.getD (genName (c + 1))) (Tensor.var (c + 1) [k]) },
              c + 1 + 1, ?_, ?_⟩
      · simp only [connect_layer, copy_eq, h1, h2]
        rfl
      · rw [hd1, hd2]
        simp
    | some g =>
      refine ⟨{ tensor := some (Tensor.app g (Tensor.add
                  (Tensor.matmul x (Tensor.var c [n, k]) none)
                  (Tensor.var (c + 1) [k]) none) name),
                vars := dictUpdate
                  (dictUpdate b.vars (wn.getD (genName c)) (Tensor.var c [n, k]))
                  (bn.getD (genName (c + 1))) (Tensor.var (c + 1) [k]) },
              c + 1 + 1, ?_, ?_⟩
      · simp only [connect_layer, copy_eq, h1, h2]
        rfl
      · rw [hd1, hd2]
        simp

/-- Witness for C6 at the concrete input `[2, 3]`, size 4, generated
parameter names, bias on. -/
theorem claim6_witness :
    (Builder.mk (some (.input 0 [2, 3])) []).tensor
        = some (.input 0 [2, 3]) ∧
      (Tensor.input 0 [2, 3]).shape = [2, 3] ∧
      hasKey [] ((none : Option String).getD (genName 0)) = false ∧
      hasKey [] ((none : Option String).getD (genName 1)) = false ∧
      (none : Option String).getD (genName 0)
        ≠ (none : Option String).getD (genName 1) ∧
      ∃ B c2, connect_layer ⟨some (.input 0 [2, 3]), []⟩ 4 none none none
          true none 0 = .ok (B, c2) ∧
        B.vars = [] ++
          (if true then
            [((none : Option String).getD (genName 0), Tensor.var 0 [3, 4]),
             ((none : Option String).getD (genName 1), Tensor.var 1 [4])]
           else [((none : Option String).getD (genName 0), Tensor.var 0 [3, 4])]) := by
  refine ⟨rfl, rfl, rfl, rfl, by decide, ?_⟩
  exact claim6_parameter_accumulation ⟨some (.input 0 [2, 3]), []⟩
    (.input 0 [2, 3]) 2 3 4 none none none true none 0 rfl rfl rfl rfl
    (by decide)

/-- Claim C7: leaf enumeration of a Tree equals the specified depth-first,
left-to-right traversal of its branches, recursing into nested Trees and
yielding Nodes directly, so the order matches the construction order. -/
theorem claim7_leaf_order (bs : List BT) :
    BuilderTree.builders ⟨bs⟩ = specDFSLeaves bs := by
  show treeLeafs bs = specDFSLeaves bs
  induction bs using treeLeafs.induct with
  | case1 => simp [treeLeafs, specDFSLeaves]
  | case2 b ts ih => simp [treeLeafs, specDFSLeaves, ih, copy_eq]
  | case3 bs2 ts ih1 ih2 => simp [treeLeafs, specDFSLeaves, ih1, ih2]

/-! ## Helper lemmas for the tree fan-in -/

theorem tree_copy_eq (t : BuilderTree) : t.copy = t := rfl

/-- The builders that the fan-in's list comprehension produces: each leaf
weight-connected with the running counter and default names. -/
def cwExpect (size : Nat) : List Builder → Nat → List Builder
  | [], _ => []
  | b :: bs, c =>
    { tensor := some (specLeafConnect size c b).1,
      vars := (specLeafConnect size c b).2 } :: cwExpect size bs (c + 1)

theorem specLeafConnect_fst (size c : Nat) (b : Builder) (x : Tensor)
    (m w : Nat) (ht : b.tensor = some x) (hs : x.shape = [m, w]) :
    (specLeafConnect size c b).1
      = Tensor.matmul x (Tensor.var c [w, size]) none := by
  simp [specLeafConnect, ht, hs]

theorem specLeafConnect_shape (size c : Nat) (b : Builder) (x : Tensor)
    (m w : Nat) (ht : b.tensor = some x) (hs : x.shape = [m, w]) :
    (specLeafConnect size c b).1.shape = [m, size] := by
  rw [specLeafConnect_fst size c b x m w ht hs]
  simp [Tensor.shape, hs]

theorem connect_weights_default_eq (b : Builder) (x : Tensor) (m w size : Nat)
    (c : Nat) (ht : b.tensor = some x) (hs : x.shape = [m, w]) :
    connect_weights b size none none c =
      .ok ({ tensor := some (specLeafConnect size c b).1,
             vars := (specLeafConnect size c b).2 }, c + 1) := by
  rw [connect_weights_eq b x m w size none none c ht hs]
  simp [specLeafConnect, ht, hs]

theorem connectWeightsAll_eq (size : Nat) (leaves : List Builder) (c : Nat)
    (h : ∀ b ∈ leaves, ∃ x m w, b.tensor = some x ∧ x.shape = [m, w]) :
    connectWeightsAll size leaves c
      = .ok (cwExpect size leaves c, c + leaves.length) := by
  induction leaves generalizing c with
  | nil => simp [connectWeightsAll, cwExpect]
  | cons b bs ih =>
    obtain ⟨x, m, w, ht, hs⟩ := h b (by simp)
    have h1 := connect_weights_default_eq b x m w size c ht hs
    have h2 := ih (c + 1) (fun b2 hb2 => h b2 (by simp [hb2]))
    have hc : c + 1 + bs.length = c + (b :: bs).length := by
      simp
      omega
    simp only [connectWeightsAll, h1, h2, hc, cwExpect]

theorem fold_step_shape (size : Nat) (rest : List Builder)
    (t : Tensor) (d : Dict) (c : Nat) :
    (rest.foldl (specFanInStep size) (t, d, c)).1.shape = t.shape := by
  induction rest generalizing t d c with
  | nil => rfl
  | cons b bs ih =>
    rw [List.foldl_cons]
    rw [ih]
    rfl

theorem fold_step_counter (size : Nat) (rest : List Builder)
    (t : Tensor) (d : Dict) (c : Nat) :
    (rest.foldl (specFanInStep size) (t, d, c)).2.2 = c + rest.length := by
  induction rest generalizing t d c with
  | nil => rfl
  | cons b bs ih =>
    rw [List.foldl_cons, ih]
    simp [specFanInStep]
    omega

theorem addGo_fold (size m : Nat) (rest : List Builder) (t : Tensor)
    (d : Dict) (c : Nat)
    (h : ∀ b ∈ rest, ∃ x w, b.tensor = some x ∧ x.shape = [m, w])
    (ht : t.shape = [m, size]) :
    addBuildersGo (some t) d (cwExpect size rest c) =
      .ok { tensor := some (rest.foldl (specFanInStep size) (t, d, c)).1,
            vars := (rest.foldl (specFanInStep size) (t, d, c)).2.1 } := by
  induction rest generalizing t d c with
  | nil => simp [cwExpect, addBuildersGo]
  | cons b bs ih =>
    obtain ⟨x, w, htb, hsb⟩ := h b (by simp)
    have hsh : (specLeafConnect size c b).1.shape = [m, size] :=
      specLeafConnect_shape size c b x m w htb hsb
    have hadd : tfAdd t (specLeafConnect size c b).1 none
        = .ok (Tensor.add t (specLeafConnect size c b).1 none) := by
      simp [tfAdd, ht, hsh]
    have hih := ih (Tensor.add t (specLeafConnect size c b).1 none)
      (dictMerge d (specLeafConnect size c b).2) (c + 1)
      (fun b2 hb2 => h b2 (by simp [hb2]))
      (by simp [Tensor.shape, ht])
    simp only [cwExpect, addBuildersGo, hadd, hih, List.foldl_cons]
    rfl

/-- Claim C8: for a non-empty Tree whose leaves all carry 2-D values of a
common row count `m` (and possibly differing widths), the fan-in
`connect_layer(size)` computes exactly the spec's description: one
independent `[width, size]` weight per leaf with no per-leaf bias, the
per-leaf products summed in leaf order, the mappings merged in leaf order
last-write-wins, one single Node returned, with one shared length-`size`
bias added when `use_bias` and the activation applied when supplied.  The
key-uniqueness hypothesis restates the Python dict invariant. -/
theorem claim8_tree_fanin (tr : BuilderTree) (size m : Nat) (f : Option Nat)
    (name : Option String) (bias : Bool) (bn : Option String) (c : Nat)
    (hne : treeLeafs tr.branches ≠ [])
    (h2d : ∀ b ∈ treeLeafs tr.branches,
      ∃ x w, b.tensor = some x ∧ x.shape = [m, w])
    (hnd : ∀ b ∈ treeLeafs tr.branches, (b.vars.map Prod.fst).Nodup) :
    ∃ r, specFanIn (treeLeafs tr.branches) size f name bias bn c = some r ∧
      BuilderTree.connect_layer tr size f name bias bn c = .ok r := by
  cases hL : treeLeafs tr.branches with
  | nil => exact absurd hL hne
  | cons l0 rest =>
    rw [hL] at h2d hnd
    obtain ⟨x0, w0, ht0, hs0⟩ := h2d l0 (by simp)
    have hsh0 : (specLeafConnect size c l0).1.shape = [m, size] :=
      specLeafConnect_shape size c l0 x0 m w0 ht0 hs0
    have hnd0 : (((specLeafConnect size c l0).2).map Prod.fst).Nodup :=
      dictUpdate_keys_nodup _ _ _ (hnd l0 (by simp))
    have hmerge0 : dictMerge [] (specLeafConnect size c l0).2
        = (specLeafConnect size c l0).2 := dictMerge_nil _ hnd0
    have hcw : connectWeightsAll size (l0 :: rest) c
        = .ok (cwExpect size (l0 :: rest) c, c + (l0 :: rest).length) :=
      connectWeightsAll_eq size (l0 :: rest) c (fun b hb => by
        obtain ⟨x, w, h1, h2⟩ := h2d b hb
        exact ⟨x, m, w, h1, h2⟩)
    have hab : add_builders (cwExpect size (l0 :: rest) c) =
        .ok { tensor :=
                some ((rest.foldl (specFanInStep size)
                  ((specLeafConnect size c l0).1,
                   (specLeafConnect size c l0).2, c + 1)).1),
              vars := (rest.foldl (specFanInStep size)
                  ((specLeafConnect size c l0).1,
                   (specLeafConnect size c l0).2, c + 1)).2.1 } := by
      show addBuildersGo none [] (cwExpect size (l0 :: rest) c) = _
      simp only [cwExpect, addBuildersGo, hmerge0]
      exact addGo_fold size m rest (specLeafConnect size c l0).1
        (specLeafConnect size c l0).2 (c + 1)
        (fun b2 hb2 => h2d b2 (by simp [hb2])) hsh0
    set acc := rest.foldl (specFanInStep size)
      ((specLeafConnect size c l0).1, (specLeafConnect size c l0).2, c + 1)
      with hacc
    have haccshape : acc.1.shape = [m, size] := by
      rw [hacc, fold_step_shape]
      exact hsh0
    have hacccount : acc.2.2 = c + (l0 :: rest).length := by
      rw [hacc, fold_step_counter]
      simp
      omega
    cases bias with
    | false =>
      cases f with
      | none =>
        refine ⟨({ tensor := some acc.1, vars := acc.2.1 }, acc.2.2),
          rfl, ?_⟩
        rw [hacccount]
        simp only [BuilderTree.connect_layer, tree_copy_eq, hL, hcw, hab]
        rfl
      | some g =>
        refine ⟨({ tensor := some (Tensor.app g acc.1 name),
                   vars := acc.2.1 }, acc.2.2), rfl, ?_⟩
        rw [hacccount]
        simp only [BuilderTree.connect_layer, tree_copy_eq, hL, hcw, hab]
        rfl
    | true =>
      have hcb := connect_bias_eq
        { tensor := some acc.1, vars := acc.2.1 } acc.1 m size none bn
        (c + (l0 :: rest).length) rfl haccshape
      cases f with
      | none =>
        refine ⟨({ tensor := some (Tensor.add acc.1
                     (Tensor.var acc.2.2 [size]) none),
                   vars := dictUpdate acc.2.1 (bn.getD (genName acc.2.2))
                     (Tensor.var acc.2.2 [size]) }, acc.2.2 + 1),
          by cases bn <;> rfl, ?_⟩
        rw [hacccount]
        simp only [BuilderTree.connect_layer, tree_copy_eq, hL, hcw, hab, hcb]
        rfl
      | some g =>
        refine ⟨({ tensor := some (Tensor.app g (Tensor.add acc.1
                     (Tensor.var acc.2.2 [size]) none) name),
                   vars := dictUpdate acc.2.1 (bn.getD (genName acc.2.2))
                     (Tensor.var acc.2.2 [size]) }, acc.2.2 + 1),
          by cases bn <;> rfl, ?_⟩
        rw [hacccount]
        simp only [BuilderTree.connect_layer, tree_copy_eq, hL, hcw, hab, hcb]
        rfl

/-- Witness for C8: a two-leaf tree with leaf widths 3 and 5, row count 2,
fan-in to width 4 with the shared bias. -/
theorem claim8_witness :
    treeLeafs [BT.bldr ⟨some (.input 0 [2, 3]), []⟩,
        BT.bldr ⟨some (.input 1 [2, 5]), []⟩] ≠ [] ∧
      (∀ b ∈ treeLeafs [BT.bldr ⟨some (.input 0 [2, 3]), []⟩,
          BT.bldr ⟨some (.input 1 [2, 5]), []⟩],
        ∃ x w, b.tensor = some x ∧ x.shape = [2, w]) ∧
      (∀ b ∈ treeLeafs [BT.bldr ⟨some (.input 0 [2, 3]), []⟩,
          BT.bldr ⟨some (.input 1 [2, 5]), []⟩],
        (b.vars.map Prod.fst).Nodup) ∧
      ∃ r, specFanIn (treeLeafs [BT.bldr ⟨some (.input 0 [2, 3]), []⟩,
            BT.bldr ⟨some (.input 1 [2, 5]), []⟩]) 4 none none true none 0
          = some r ∧
        BuilderTree.connect_layer
            ⟨[BT.bldr ⟨some (.input 0 [2, 3]), []⟩,
              BT.bldr ⟨some (.input 1 [2, 5]), []⟩]⟩ 4 none none true none 0
          = .ok r := by
  have hl : treeLeafs [BT.bldr ⟨some (.input 0 [2, 3]), []⟩,
      BT.bldr ⟨some (.input 1 [2, 5]), []⟩]
      = [⟨some (.input 0 [2, 3]), []⟩, ⟨some (.input 1 [2, 5]), []⟩] := by
    simp [treeLeafs, copy_eq]
  have h1 : treeLeafs [BT.bldr ⟨some (.input 0 [2, 3]), []⟩,
      BT.bldr ⟨some (.input 1 [2, 5]), []⟩] ≠ [] := by
    rw [hl]
    simp
  have h2 : ∀ b ∈ treeLeafs [BT.bldr ⟨some (.input 0 [2, 3]), []⟩,
      BT.bldr ⟨some (.input 1 [2, 5]), []⟩],
      ∃ x w, b.tensor = some x ∧ x.shape = [2, w] := by
    rw [hl]
    intro b hb
    simp only [List.mem_cons, List.not_mem_nil, or_false] at hb
    rcases hb with rfl | rfl
    · exact ⟨Tensor.input 0 [2, 3], 3, rfl, rfl⟩
    · exact ⟨Tensor.input 1 [2, 5], 5, rfl, rfl⟩
  have h3 : ∀ b ∈ treeLeafs [BT.bldr ⟨some (.input 0 [2, 3]), []⟩,
      BT.bldr ⟨some (.input 1 [2, 5]), []⟩],
      (b.vars.map Prod.fst).Nodup := by
    rw [hl]
    intro b hb
    simp only [List.mem_cons, List.not_mem_nil, or_false] at hb
    rcases hb with rfl | rfl <;> simp
  exact ⟨h1, h2, h3, claim8_tree_fanin
    ⟨[BT.bldr ⟨some (.input 0 [2, 3]), []⟩,
      BT.bldr ⟨some (.input 1 [2, 5]), []⟩]⟩ 4 2 none none true none 0
    h1 h2 h3⟩

/-! ## Heap model

Python objects live in explicit stores, so that statements about in-place
mutation, object identity and the shared mutable default `variables={}`
dictionary of `Builder.__init__` (`src/tensorbuilder.py:116`) become
expressible.  `dicts` stores dictionary objects and `objs` stores Builder
objects, as total functions from reference to contents with
`ndicts`/`nobjs` the next fresh reference.  Dictionary reference 0 is the
module-load-time default dictionary object shared by every Builder
constructed without an explicit `variables` argument.  Caller-supplied
callbacks (`map`/`then`/`branch` arguments) are modelled as pure functions
of their argument's contents. -/

/-- A Python `Builder` object: the `tensor` field and the reference of the
dictionary object held in its `variables` field. -/
structure BuilderObj where
  tensor : Option Tensor
  varsRef : Nat

/-- The Python store; `counter` is the collaborator's name counter. -/
structure PyState where
  dicts : Nat → Dict
  ndicts : Nat
  objs : Nat → BuilderObj
  nobjs : Nat
  counter : Nat

/-- The state at module load: dictionary cell 0 is the default `{}` of
`Builder.__init__`; no Builder objects exist yet. -/
def initState : PyState :=
  { dicts := fun _ => [], ndicts := 1, objs := fun _ => ⟨none, 0⟩,
    nobjs := 0, counter := 0 }

def allocDict (s : PyState) (d : Dict) : Nat × PyState :=
  (s.ndicts,
    { s with
        dicts := Function.update s.dicts s.ndicts d
        ndicts := s.ndicts + 1 })

def allocObj (s : PyState) (o : BuilderObj) : Nat × PyState :=
  (s.nobjs,
    { s with
        objs := Function.update s.objs s.nobjs o
        nobjs := s.nobjs + 1 })

/-- In-place mutation of a dictionary object (`builder.variables[k] = v`
writes through the reference). -/
def writeDict (s : PyState) (r : Nat) (d : Dict) : PyState :=
  { s with dicts := Function.update s.dicts r d }

/-- In-place mutation of a Builder object's field
(`builder.tensor = ...`). -/
def writeTensor (s : PyState) (i : Nat) (t : Option Tensor) : PyState :=
  { s with objs := Function.update s.objs i { s.objs i with tensor := t } }

/-- `tb.builder(tensor)` (`src/tensorbuilder.py:629`): `Builder(tensor)`
with the default `variables` argument, so the new object's `variables`
field references the shared default dictionary object 0. -/
def builderSt (t : Tensor) (s : PyState) : Nat × PyState :=
  allocObj s { tensor := some t, varsRef := 0 }

/-- `Builder.copy` (`src/tensorbuilder.py:125`) in the heap model: a fresh
dictionary object holding a copy of the receiver's dictionary, and a
fresh Builder object sharing the receiver's tensor. -/
def copySt (s : PyState) (i : Nat) : Nat × PyState :=
  let o := s.objs i
  let (dr, s1) := allocDict s (s.dicts o.varsRef)
  allocObj s1 { tensor := o.tensor, varsRef := dr }

/-- `Builder.connect_weights` in the heap model: copy the receiver, then
mutate the copy's dictionary and tensor in place.  On failure the state
reached so far is kept (a Python exception does not roll mutations back). -/
def connect_weightsSt (s : PyState) (i size : Nat)
    (name wn : Option String) : Except Err Nat × PyState :=
  let j := (copySt s i).1
  let s1 := (copySt s i).2
  let o := s1.objs j
  match o.tensor with
  | none => (.error .attributeError, s1)
  | some x =>
    match getDim1 x with
    | .error e => (.error e, s1)
    | .ok m2 =>
      let w := Tensor.var s1.counter [m2, size]
      let wname := wn.getD (genName s1.counter)
      let s2 := { s1 with counter := s1.counter + 1 }
      let s3 := writeDict s2 o.varsRef (dictUpdate (s2.dicts o.varsRef) wname w)
      match tfMatmul x w name with
      | .error e => (.error e, s3)
      | .ok t => (.ok j, writeTensor s3 j (some t))

/-- `Builder.connect_bias` in the heap model. -/
def connect_biasSt (s : PyState) (i : Nat) (name bn : Option String) :
    Except Err Nat × PyState :=
  let j := (copySt s i).1
  let s1 := (copySt s i).2
  let o := s1.objs j
  match o.tensor with
  | none => (.error .attributeError, s1)
  | some x =>
    match getDim1 x with
    | .error e => (.error e, s1)
    | .ok m2 =>
      let b := Tensor.var s1.counter [m2]
      let bname := bn.getD (genName s1.counter)
      let s2 := { s1 with counter := s1.counter + 1 }
      let s3 := writeDict s2 o.varsRef (dictUpdate (s2.dicts o.varsRef) bname b)
      match tfAdd x b name with
      | .error e => (.error e, s3)
      | .ok t => (.ok j, writeTensor s3 j (some t))

/-- `Builder.connect_layer` in the heap model: copy, then the two
sub-operations (which copy again), then the in-place activation write. -/
def connect_layerSt (s : PyState) (i size : Nat) (fn : Option Nat)
    (name wn : Option String) (bias : Bool) (bn : Option String) :
    Except Err Nat × PyState :=
  let j := (copySt s i).1
  let s1 := (copySt s i).2
  let p2 := connect_weightsSt s1 j size none wn
  match p2.1 with
  | .error e => (.error e, p2.2)
  | .ok k =>
    let p3 := if bias then connect_biasSt p2.2 k none bn else (.ok k, p2.2)
    match p3.1 with
    | .error e => (.error e, p3.2)
    | .ok l =>
      match fn with
      | none => (.ok l, p3.2)
      | some f =>
        match (p3.2.objs l).tensor with
        | some x => (.ok l, writeTensor p3.2 l (some (Tensor.app f x name)))
        | none => (.error .collaboratorError, p3.2)

/-- `Builder.map` in the heap model: the caller-supplied function is a
pure function of the copy's tensor. -/
def mapSt (s : PyState) (i : Nat) (f : Option Tensor → Option Tensor) :
    Except Err Nat × PyState :=
  let j := (copySt s i).1
  let s1 := (copySt s i).2
  (.ok j, writeTensor s1 j (f ((s1.objs j).tensor)))

/-- `Builder.then` in the heap model: the caller-supplied Node-to-Node
function is a pure function of the copy's contents, its result realised
as a fresh object. -/
def thenSt (s : PyState) (i : Nat)
    (f : Option Tensor × Dict → Option Tensor × Dict) :
    Except Err Nat × PyState :=
  let j := (copySt s i).1
  let s1 := (copySt s i).2
  let r := f ((s1.objs j).tensor, s1.dicts ((s1.objs j).varsRef))
  let s2 := (allocDict s1 r.2).2
  let dr := (allocDict s1 r.2).1
  let p := allocObj s2 { tensor := r.1, varsRef := dr }
  (.ok p.1, p.2)

/-- Realise a list of Builder contents as fresh objects. -/
def allocMany (s : PyState) : List (Option Tensor × Dict) →
    List Nat × PyState
  | [] => ([], s)
  | r :: rest =>
    let s1 := (allocDict s r.2).2
    let dr := (allocDict s r.2).1
    let p := allocObj s1 { tensor := r.1, varsRef := dr }
    let q := allocMany p.2 rest
    (p.1 :: q.1, q.2)

/-- `Builder.branch` in the heap model: the caller-supplied function is a
pure function of the copy's contents returning the branch contents, each
realised as a fresh object; the resulting Tree holds their references. -/
def branchSt (s : PyState) (i : Nat)
    (f : Option Tensor × Dict → List (Option Tensor × Dict)) :
    List Nat × PyState :=
  let j := (copySt s i).1
  let s1 := (copySt s i).2
  let rs := f ((s1.objs j).tensor, s1.dicts ((s1.objs j).varsRef))
  allocMany s1 rs

/-- `Builder._leafs` in the heap model: yields the fresh copy. -/
def leafsSt (s : PyState) (i : Nat) : List Nat × PyState :=
  ([(copySt s i).1], (copySt s i).2)

/-- A public Builder operation together with its arguments. -/
inductive Op where
  | cw (size : Nat) (name wn : Option String)
  | cb (name bn : Option String)
  | cl (size : Nat) (fn : Option Nat) (name wn : Option String)
      (bias : Bool) (bn : Option String)
  | mp (f : Option Tensor → Option Tensor)
  | thn (f : Option Tensor × Dict → Option Tensor × Dict)
  | br (f : Option Tensor × Dict → List (Option Tensor × Dict))
  | lv

def okList : Except Err Nat → List Nat
  | .ok k => [k]
  | .error _ => []

/-- Apply one public operation to the Builder object `i`: the next state
and the references of the produced objects. -/
def stepOp (s : PyState) (i : Nat) : Op → PyState × List Nat
  | .cw size name wn =>
    let p := connect_weightsSt s i size name wn
    (p.2, okList p.1)
  | .cb name bn =>
    let p := connect_biasSt s i name bn
    (p.2, okList p.1)
  | .cl size fn name wn bias bn =>
    let p := connect_layerSt s i size fn name wn bias bn
    (p.2, okList p.1)
  | .mp f =>
    let p := mapSt s i f
    (p.2, okList p.1)
  | .thn f =>
    let p := thenSt s i f
    (p.2, okList p.1)
  | .br f =>
    let p := branchSt s i f
    (p.2, p.1)
  | .lv =>
    let p := leafsSt s i
    (p.2, p.1)

/-- `s2` preserves every object cell and dictionary cell already allocated
in `s` and allocates only past the old frontier. -/
def Frames (s s2 : PyState) : Prop :=
  (∀ j, j < s.nobjs → s2.objs j = s.objs j) ∧
  (∀ r, r < s.ndicts → s2.dicts r = s.dicts r) ∧
  s.nobjs ≤ s2.nobjs ∧ s.ndicts ≤ s2.ndicts

theorem frames_refl (s : PyState) : Frames s s :=
  ⟨fun _ _ => rfl, fun _ _ => rfl, Nat.le_refl _, Nat.le_refl _⟩

theorem frames_trans {s1 s2 s3 : PyState} (h1 : Frames s1 s2)
    (h2 : Frames s2 s3) : Frames s1 s3 := by
  obtain ⟨ho1, hd1, hn1, hm1⟩ := h1
  obtain ⟨ho2, hd2, hn2, hm2⟩ := h2
  exact ⟨fun j hj => (ho2 j (lt_of_lt_of_le hj hn1)).trans (ho1 j hj),
    fun r hr => (hd2 r (lt_of_lt_of_le hr hm1)).trans (hd1 r hr),
    le_trans hn1 hn2, le_trans hm1 hm2⟩

theorem frames_counter {s s2 : PyState} (hf : Frames s s2) (c : Nat) :
    Frames s { s2 with counter := c } :=
  ⟨hf.1, hf.2.1, hf.2.2.1, hf.2.2.2⟩

theorem frames_writeDict {s s2 : PyState} {r : Nat} (d : Dict)
    (hf : Frames s s2) (hr : s.ndicts ≤ r) : Frames s (writeDict s2 r d) := by
  obtain ⟨ho, hd, hn, hm⟩ := hf
  refine ⟨ho, ?_, hn, hm⟩
  intro r2 hr2
  show Function.update s2.dicts r d r2 = s.dicts r2
  rw [Function.update_noteq (Nat.ne_of_lt (lt_of_lt_of_le hr2 hr))]
  exact hd r2 hr2

theorem frames_writeTensor {s s2 : PyState} {i : Nat} (t : Option Tensor)
    (hf : Frames s s2) (hi : s.nobjs ≤ i) : Frames s (writeTensor s2 i t) := by
  obtain ⟨ho, hd, hn, hm⟩ := hf
  refine ⟨?_, hd, hn, hm⟩
  intro j hj
  show Function.update s2.objs i _ j = s.objs j
  rw [Function.update_noteq (Nat.ne_of_lt (lt_of_lt_of_le hj hi))]
  exact ho j hj

theorem frames_allocDict {s s2 : PyState} (d : Dict) (hf : Frames s s2) :
    Frames s (allocDict s2 d).2 := by
  obtain ⟨ho, hd, hn, hm⟩ := hf
  refine ⟨ho, ?_, hn, le_trans hm (Nat.le_succ _)⟩
  intro r2 hr2
  show Function.update s2.dicts s2.ndicts d r2 = s.dicts r2
  rw [Function.update_noteq (Nat.ne_of_lt (lt_of_lt_of_le hr2 hm))]
  exact hd r2 hr2

theorem frames_allocObj {s s2 : PyState} (o : BuilderObj) (hf : Frames s s2) :
    Frames s (allocObj s2 o).2 := by
  obtain ⟨ho, hd, hn, hm⟩ := hf
  refine ⟨?_, hd, le_trans hn (Nat.le_succ _), hm⟩
  intro j hj
  show Function.update s2.objs s2.nobjs o j = s.objs j
  rw [Function.update_noteq (Nat.ne_of_lt (lt_of_lt_of_le hj hn))]
  exact ho j hj

theorem copySt_facts (s : PyState) (i : Nat) :
    (copySt s i).1 = s.nobjs ∧
    Frames s (copySt s i).2 ∧
    (copySt s i).2.nobjs = s.nobjs + 1 ∧
    (copySt s i).2.ndicts = s.ndicts + 1 ∧
    (copySt s i).2.objs s.nobjs
      = { tensor := (s.objs i).tensor, varsRef := s.ndicts } ∧
    (copySt s i).2.counter = s.counter := by
  refine ⟨rfl, ⟨?_, ?_, Nat.le_succ _, Nat.le_succ _⟩, rfl, rfl, ?_, rfl⟩
  · intro j hj
    show Function.update s.objs s.nobjs _ j = s.objs j
    rw [Function.update_noteq (Nat.ne_of_lt hj)]
  · intro r hr
    show Function.update s.dicts s.ndicts _ r = s.dicts r
    rw [Function.update_noteq (Nat.ne_of_lt hr)]
  · show Function.update s.objs s.nobjs _ s.nobjs = _
    rw [Function.update_same]

theorem cwSt_facts (s : PyState) (i size : Nat) (name wn : Option String) :
    Frames s (connect_weightsSt s i size name wn).2 ∧
    ∀ k, (connect_weightsSt s i size name wn).1 = .ok k → k = s.nobjs := by
  obtain ⟨hj, hcf, hno, hnd2, hobj, hct⟩ := copySt_facts s i
  refine ⟨?_, ?_⟩
  · unfold connect_weightsSt
    simp only [hj, hobj]
    split
    · exact hcf
    · split
      · exact hcf
      · split
        · exact frames_writeDict _ (frames_counter hcf _) (Nat.le_refl _)
        · exact frames_writeTensor _
            (frames_writeDict _ (frames_counter hcf _) (Nat.le_refl _))
            (Nat.le_refl _)
  · intro k hk
    unfold connect_weightsSt at hk
    simp only [hj, hobj] at hk
    split at hk
    · simp at hk
    · split at hk
      · simp at hk
      · split at hk
        · simp at hk
        · simp at hk
          omega

theorem cbSt_facts (s : PyState) (i : Nat) (name bn : Option String) :
    Frames s (connect_biasSt s i name bn).2 ∧
    ∀ k, (connect_biasSt s i name bn).1 = .ok k → k = s.nobjs := by
  obtain ⟨hj, hcf, hno, hnd2, hobj, hct⟩ := copySt_facts s i
  refine ⟨?_, ?_⟩
  · unfold connect_biasSt
    simp only [hj, hobj]
    split
    · exact hcf
    · split
      · exact hcf
      · split
        · exact frames_writeDict _ (frames_counter hcf _) (Nat.le_refl _)
        · exact frames_writeTensor _
            (frames_writeDict _ (frames_counter hcf _) (Nat.le_refl _))
            (Nat.le_refl _)
  · intro k hk
    unfold connect_biasSt at hk
    simp only [hj, hobj] at hk
    split at hk
    · simp at hk
    · split at hk
      · simp at hk
      · split at hk
        · simp at hk
        · simp at hk
          omega

theorem clSt_facts (s : PyState) (i size : Nat) (fn : Option Nat)
    (name wn : Option String) (bias : Bool) (bn : Option String) :
    Frames s (connect_layerSt s i size fn name wn bias bn).2 ∧
    ∀ k, (connect_layerSt s i size fn name wn bias bn).1 = .ok k →
      s.nobjs ≤ k := by
  obtain ⟨hj, hcf, hno, hnd2, hobj, hct⟩ := copySt_facts s i
  obtain ⟨hf2, hk2⟩ := cwSt_facts (copySt s i).2 s.nobjs size none wn
  have hfs2 : Frames s (connect_weightsSt (copySt s i).2 s.nobjs size
      none wn).2 := frames_trans hcf hf2
  have hmono2 : s.nobjs ≤ (connect_weightsSt (copySt s i).2 s.nobjs size
      none wn).2.nobjs := hfs2.2.2.1
  have hcopyle : s.nobjs ≤ (copySt s i).2.nobjs := by
    rw [hno]
    exact Nat.le_succ _
  obtain ⟨hf3, hk3⟩ := cbSt_facts (connect_weightsSt (copySt s i).2 s.nobjs
    size none wn).2 ((copySt s i).2.nobjs) none bn
  have hfs3 : Frames s (connect_biasSt (connect_weightsSt (copySt s i).2
      s.nobjs size none wn).2 ((copySt s i).2.nobjs) none bn).2 :=
    frames_trans hfs2 hf3
  refine ⟨?_, ?_⟩
  · unfold connect_layerSt
    simp only [hj]
    split
    · exact hfs2
    · rename_i k hw
      have hkval : k = (copySt s i).2.nobjs := hk2 k hw
      subst hkval
      cases bias with
      | false =>
        simp only [Bool.false_eq_true, if_false]
        cases fn with
        | none => exact hfs2
        | some f =>
          cases hto : ((connect_weightsSt (copySt s i).2 s.nobjs size
              none wn).2.objs ((copySt s i).2.nobjs)).tensor with
          | some x => exact frames_writeTensor _ hfs2 hcopyle
          | none => exact hfs2
      | true =>
        simp only [if_true]
        split
        · exact hfs3
        · rename_i l hl
          have hlval : l = (connect_weightsSt (copySt s i).2 s.nobjs size
              none wn).2.nobjs := hk3 l hl
          cases fn with
          | none => exact hfs3
          | some f =>
            cases hto : ((connect_biasSt (connect_weightsSt (copySt s i).2
                s.nobjs size none wn).2 ((copySt s i).2.nobjs)
                none bn).2.objs l).tensor with
            | some x =>
              refine frames_writeTensor _ hfs3 ?_
              rw [hlval]
              exact hmono2
            | none => exact hfs3
  · intro k0 hk0
    unfold connect_layerSt at hk0
    simp only [hj] at hk0
    split at hk0
    · exact absurd hk0 (by simp)
    · rename_i k hw
      have hkval : k = (copySt s i).2.nobjs := hk2 k hw
      subst hkval
      cases bias with
      | false =>
        simp only [Bool.false_eq_true, if_false] at hk0
        cases fn with
        | none =>
          have hkk : Except.ok ((copySt s i).2.nobjs)
              = Except.ok (ε := Err) k0 := hk0
          have hkk2 : (copySt s i).2.nobjs = k0 := by
            simpa using hkk
          omega
        | some f =>
          cases hto : ((connect_weightsSt (copySt s i).2 s.nobjs size
              none wn).2.objs ((copySt s i).2.nobjs)).tensor with
          | some x =>
            rw [hto] at hk0
            have hkk2 : (copySt s i).2.nobjs = k0 := by
              simpa using hk0
            omega
          | none =>
            rw [hto] at hk0
            exact absurd hk0 (by simp)
      | true =>
        simp only [if_true] at hk0
        split at hk0
        · exact absurd hk0 (by simp)
        · rename_i l hl
          have hlval : l = (connect_weightsSt (copySt s i).2 s.nobjs size
              none wn).2.nobjs := hk3 l hl
          have hlge : s.nobjs ≤ l := by
            rw [hlval]
            exact hmono2
          cases fn with
          | none =>
            have hkk2 : l = k0 := by
              simpa using hk0
            omega
          | some f =>
            cases hto : ((connect_biasSt (connect_weightsSt (copySt s i).2
                s.nobjs size none wn).2 ((copySt s i).2.nobjs)
                none bn).2.objs l).tensor with
            | some x =>
              rw [hto] at hk0
              have hkk2 : l = k0 := by
                simpa using hk0
              omega
            | none =>
              rw [hto] at hk0
              exact absurd hk0 (by simp)

theorem mapSt_facts (s : PyState) (i : Nat)
    (f : Option Tensor → Option Tensor) :
    Frames s (mapSt s i f).2 ∧
    ∀ k, (mapSt s i f).1 = .ok k → k = s.nobjs := by
  obtain ⟨hj, hcf, hno, hnd2, hobj, hct⟩ := copySt_facts s i
  refine ⟨?_, ?_⟩
  · unfold mapSt
    simp only [hj]
    exact frames_writeTensor _ hcf (Nat.le_refl _)
  · intro k hk
    unfold mapSt at hk
    simp only [hj] at hk
    simp at hk
    omega

theorem thenSt_facts (s : PyState) (i : Nat)
    (f : Option Tensor × Dict → Option Tensor × Dict) :
    Frames s (thenSt s i f).2 ∧
    ∀ k, (thenSt s i f).1 = .ok k → s.nobjs ≤ k := by
  obtain ⟨hj, hcf, hno, hnd2, hobj, hct⟩ := copySt_facts s i
  have hfd : Frames s (allocDict (copySt s i).2
      (f (((copySt s i).2.objs (copySt s i).1).tensor,
        (copySt s i).2.dicts
          (((copySt s i).2.objs (copySt s i).1).varsRef))).2).2 :=
    frames_allocDict _ hcf
  refine ⟨?_, ?_⟩
  · unfold thenSt
    exact frames_allocObj _ hfd
  · intro k hk
    unfold thenSt allocObj at hk
    simp at hk
    have hge := hfd.2.2.1
    omega

theorem allocMany_facts (rs : List (Option Tensor × Dict)) (s : PyState) :
    Frames s (allocMany s rs).2 ∧
    ∀ k ∈ (allocMany s rs).1, s.nobjs ≤ k := by
  induction rs generalizing s with
  | nil =>
    exact ⟨frames_refl s, by
      intro k hk
      exact absurd hk (by simp [allocMany])⟩
  | cons r rest ih =>
    have hfd : Frames s (allocDict s r.2).2 :=
      frames_allocDict _ (frames_refl s)
    have hfo : Frames s (allocObj (allocDict s r.2).2
        { tensor := r.1, varsRef := (allocDict s r.2).1 }).2 :=
      frames_allocObj _ hfd
    obtain ⟨hfr, hkr⟩ := ih (allocObj (allocDict s r.2).2
      { tensor := r.1, varsRef := (allocDict s r.2).1 }).2
    refine ⟨?_, ?_⟩
    · show Frames s (allocMany _ rest).2
      exact frames_trans hfo hfr
    · intro k hk
      simp only [allocMany, List.mem_cons] at hk
      rcases hk with rfl | hk
      · exact hfd.2.2.1
      · exact le_trans hfo.2.2.1 (hkr k hk)

theorem brSt_facts (s : PyState) (i : Nat)
    (f : Option Tensor × Dict → List (Option Tensor × Dict)) :
    Frames s (branchSt s i f).2 ∧
    ∀ k ∈ (branchSt s i f).1, s.nobjs ≤ k := by
  obtain ⟨hj, hcf, hno, hnd2, hobj, hct⟩ := copySt_facts s i
  obtain ⟨hfr, hkr⟩ := allocMany_facts
    (f (((copySt s i).2.objs (copySt s i).1).tensor,
      (copySt s i).2.dicts (((copySt s i).2.objs (copySt s i).1).varsRef)))
    (copySt s i).2
  refine ⟨?_, ?_⟩
  · unfold branchSt
    exact frames_trans hcf hfr
  · intro k hk
    unfold branchSt at hk
    exact le_trans hcf.2.2.1 (hkr k hk)

theorem lvSt_facts (s : PyState) (i : Nat) :
    Frames s (leafsSt s i).2 ∧ ∀ k ∈ (leafsSt s i).1, k = s.nobjs := by
  obtain ⟨hj, hcf, hno, hnd2, hobj, hct⟩ := copySt_facts s i
  refine ⟨hcf, ?_⟩
  intro k hk
  unfold leafsSt at hk
  simp only [hj] at hk
  simpa using hk

theorem okList_mem {r : Except Err Nat} {k : Nat} (h : k ∈ okList r) :
    r = .ok k := by
  cases r with
  | ok k2 =>
    simp only [okList, List.mem_singleton] at h
    rw [h]
  | error e => exact absurd h (by simp [okList])

/-- Frame property of a single public operation: every object cell and
dictionary cell existing before the call is unchanged, and every produced
object is fresh. -/
theorem stepOp_frames (s : PyState) (i : Nat) (op : Op) :
    Frames s (stepOp s i op).1 ∧
    ∀ k ∈ (stepOp s i op).2, s.nobjs ≤ k := by
  cases op with
  | cw size name wn =>
    obtain ⟨hf, hk⟩ := cwSt_facts s i size name wn
    refine ⟨hf, ?_⟩
    intro k hkm
    have := hk k (okList_mem hkm)
    omega
  | cb name bn =>
    obtain ⟨hf, hk⟩ := cbSt_facts s i name bn
    refine ⟨hf, ?_⟩
    intro k hkm
    have := hk k (okList_mem hkm)
    omega
  | cl size fn name wn bias bn =>
    obtain ⟨hf, hk⟩ := clSt_facts s i size fn name wn bias bn
    exact ⟨hf, fun k hkm => hk k (okList_mem hkm)⟩
  | mp f =>
    obtain ⟨hf, hk⟩ := mapSt_facts s i f
    refine ⟨hf, ?_⟩
    intro k hkm
    have := hk k (okList_mem hkm)
    omega
  | thn f =>
    obtain ⟨hf, hk⟩ := thenSt_facts s i f
    exact ⟨hf, fun k hkm => hk k (okList_mem hkm)⟩
  | br f =>
    obtain ⟨hf, hk⟩ := brSt_facts s i f
    exact ⟨hf, hk⟩
  | lv =>
    obtain ⟨hf, hk⟩ := lvSt_facts s i
    refine ⟨hf, ?_⟩
    intro k hkm
    have := hk k hkm
    omega

/-- A sequence of public operations, each applied to a chosen object. -/
def runOps : List (Nat × Op) → PyState → PyState
  | [], s => s
  | p :: rest, s => runOps rest (stepOp s p.1 p.2).1

theorem runOps_frames (ops : List (Nat × Op)) (s : PyState) :
    Frames s (runOps ops s) := by
  induction ops generalizing s with
  | nil => exact frames_refl s
  | cons p rest ih =>
    exact frames_trans (stepOp_frames s p.1 p.2).1 (ih (stepOp s p.1 p.2).1)

/-- Claim C3: applying any public operation (`connect_weights`,
`connect_bias`, `connect_layer`, `map`, `then`, `branch`, `leaves`) to a
Node object leaves the receiver's object cell — hence its value — and its
parameter dictionary cell unchanged (identity of contents before and
after), and every Node object the operation produces is distinct from the
receiver. -/
theorem claim3_op_immutability (s : PyState) (i : Nat) (op : Op)
    (hio : i < s.nobjs) (hid : (s.objs i).varsRef < s.ndicts) :
    (stepOp s i op).1.objs i = s.objs i ∧
    (stepOp s i op).1.dicts ((s.objs i).varsRef)
      = s.dicts ((s.objs i).varsRef) ∧
    ∀ k ∈ (stepOp s i op).2, k ≠ i := by
  obtain ⟨hf, hk⟩ := stepOp_frames s i op
  refine ⟨hf.1 i hio, hf.2.1 _ hid, ?_⟩
  intro k hkm
  have := hk k hkm
  omega

/-- Witness for C3: a fresh Builder over a `[2, 3]` input and a
`connect_weights` call on it. -/
theorem claim3_witness :
    0 < (builderSt (.input 0 [2, 3]) initState).2.nobjs ∧
      (((builderSt (.input 0 [2, 3]) initState).2.objs 0).varsRef
        < (builderSt (.input 0 [2, 3]) initState).2.ndicts) ∧
      ((stepOp (builderSt (.input 0 [2, 3]) initState).2 0
          (Op.cw 4 none none)).1.objs 0
        = (builderSt (.input 0 [2, 3]) initState).2.objs 0 ∧
      (stepOp (builderSt (.input 0 [2, 3]) initState).2 0
          (Op.cw 4 none none)).1.dicts
          (((builderSt (.input 0 [2, 3]) initState).2.objs 0).varsRef)
        = (builderSt (.input 0 [2, 3]) initState).2.dicts
          (((builderSt (.input 0 [2, 3]) initState).2.objs 0).varsRef) ∧
      ∀ k ∈ (stepOp (builderSt (.input 0 [2, 3]) initState).2 0
          (Op.cw 4 none none)).2, k ≠ 0) := by
  refine ⟨by decide, by decide, ?_⟩
  exact claim3_op_immutability (builderSt (.input 0 [2, 3]) initState).2 0
    (Op.cw 4 none none) (by decide) (by decide)

/-- Claim C10: two Builders created by separate module-level `builder()`
calls share the single mutable default dictionary object of `__init__`
(their `variables` references are equal), and yet performing any sequence
of public operations on any objects leaves the second Builder's object
and its parameter dictionary cell unchanged, because every operation
writes only to freshly copied dictionaries. -/
theorem claim10_default_dict_isolation (t1 t2 : Tensor)
    (ops : List (Nat × Op)) :
    let s2 := (builderSt t2 (builderSt t1 initState).2).2
    let b1 := (builderSt t1 initState).1
    let b2 := (builderSt t2 (builderSt t1 initState).2).1
    ((s2.objs b2).varsRef = (s2.objs b1).varsRef) ∧
    (runOps ops s2).objs b2 = s2.objs b2 ∧
    (runOps ops s2).dicts ((s2.objs b2).varsRef)
      = s2.dicts ((s2.objs b2).varsRef) := by
  intro s2 b1 b2
  have hf := runOps_frames ops s2
  refine ⟨rfl, ?_, ?_⟩
  · refine hf.1 b2 ?_
    show (1 : Nat) < 2
    omega
  · refine hf.2.1 _ ?_
    show (0 : Nat) < 1
    omega

end TensorBuilder
